import Mathlib

/-!
Verification of the focus-navigation and lazy-content-loading coordinator of a
TV-style content browser (React/TypeScript source).  The definitions below are
shallow embeddings of the source functions:

* `getMaxCols`, `updatePosition`, `navigate` embed `useRokuNavigation.tsx`
  (the focus coordinator hook).  JS numbers are modelled as `Int`; the JS
  expression `cols[row] || 0` is modelled by `List.getD` with default `0`
  (out-of-range and `undefined` indexing both yield the default, and `0 || 0`
  is `0`).  The `onFocusChange` callback is modelled by a `Nat` counting how
  many times the callback is invoked during one call.
-/

namespace RokuNav

structure FocusPosition where
  row : Int
  col : Int
deriving Repr, DecidableEq

inductive Direction where
  | up : Direction
  | down : Direction
  | left : Direction
  | right : Direction
deriving Repr, DecidableEq

/-- The `cols` configuration field: `number[] | number` in the source. -/
inductive ColsSpec where
  | arr : List Int → ColsSpec
  | uniform : Int → ColsSpec
deriving Repr, DecidableEq

structure NavConfig where
  rows : Int
  cols : ColsSpec
  enabled : Bool
  wrap : Bool
deriving Repr, DecidableEq

/-- `getMaxCols` from `useRokuNavigation.tsx`: `Array.isArray(cols) ? (cols[row] || 0) : cols`. -/
def getMaxCols (cols : ColsSpec) (row : Int) : Int :=
  match cols with
  | ColsSpec.arr l => if 0 ≤ row then l.getD row.toNat 0 else 0
  | ColsSpec.uniform n => n

/-- `updatePosition` from `useRokuNavigation.tsx`: clamp the row into
`[0, rows-1]`, clamp the column into `[0, getMaxCols(validRow)-1]` (floored at
`0`), then update state and fire `onFocusChange` only when the clamped
position differs from the current one.  The second component counts
`onFocusChange` invocations. -/
def updatePosition (rows : Int) (cols : ColsSpec) (st : FocusPosition) (p : FocusPosition) :
    FocusPosition × Nat :=
  let validRow := max 0 (min (rows - 1) p.row)
  let maxCol := getMaxCols cols validRow - 1
  let validCol := max 0 (min maxCol p.col)
  if validRow ≠ st.row ∨ validCol ≠ st.col then (⟨validRow, validCol⟩, 1)
  else (st, 0)

/-- `navigate` from `useRokuNavigation.tsx`.  Returns the new focus position
and the number of `onFocusChange` invocations performed by this call. -/
def navigate (cfg : NavConfig) (st : FocusPosition) (d : Direction) : FocusPosition × Nat :=
  if cfg.enabled = false then (st, 0) else
  match d with
  | Direction.up =>
    if 0 < st.row then
      updatePosition cfg.rows cfg.cols st
        ⟨st.row - 1, min st.col (getMaxCols cfg.cols (st.row - 1) - 1)⟩
    else if cfg.wrap then
      updatePosition cfg.rows cfg.cols st
        ⟨cfg.rows - 1, min st.col (getMaxCols cfg.cols (cfg.rows - 1) - 1)⟩
    else (st, 0)
  | Direction.down =>
    if st.row < cfg.rows - 1 then
      updatePosition cfg.rows cfg.cols st
        ⟨st.row + 1, min st.col (getMaxCols cfg.cols (st.row + 1) - 1)⟩
    else if cfg.wrap then
      updatePosition cfg.rows cfg.cols st
        ⟨0, min st.col (getMaxCols cfg.cols 0 - 1)⟩
    else (st, 0)
  | Direction.left =>
    if 0 < st.col then
      updatePosition cfg.rows cfg.cols st ⟨st.row, st.col - 1⟩
    else if cfg.wrap = true ∧ 0 < st.row then
      updatePosition cfg.rows cfg.cols st
        ⟨st.row - 1, getMaxCols cfg.cols (st.row - 1) - 1⟩
    else (st, 0)
  | Direction.right =>
    if st.col < getMaxCols cfg.cols st.row - 1 then
      updatePosition cfg.rows cfg.cols st ⟨st.row, st.col + 1⟩
    else if cfg.wrap = true ∧ st.row < cfg.rows - 1 then
      updatePosition cfg.rows cfg.cols st ⟨st.row + 1, 0⟩
    else (st, 0)

/-- A whole sequence of `moveFocus` calls (each `moveFocus` simply forwards to
`navigate`). -/
def moveFocusSeq (cfg : NavConfig) (st : FocusPosition) (ds : List Direction) : FocusPosition :=
  ds.foldl (fun s d => (navigate cfg s d).1) st

/-- The focus-position invariant of the specification:
`0 ≤ row < totalRows` and `0 ≤ col < max 1 (lengthOf row)`. -/
def validPos (rows : Int) (cols : ColsSpec) (p : FocusPosition) : Prop :=
  0 ≤ p.row ∧ p.row < rows ∧ 0 ≤ p.col ∧ p.col < max 1 (getMaxCols cols p.row)

instance (rows : Int) (cols : ColsSpec) (p : FocusPosition) : Decidable (validPos rows cols p) := by
  unfold validPos
  exact inferInstance

/-- The first component of `updatePosition` is always the clamped candidate
position (when no update happens, the current position already equals it). -/
theorem updatePosition_fst (rows : Int) (cols : ColsSpec) (st p : FocusPosition) :
    (updatePosition rows cols st p).1 =
      ⟨max 0 (min (rows - 1) p.row),
        max 0 (min (getMaxCols cols (max 0 (min (rows - 1) p.row)) - 1) p.col)⟩ := by
  simp only [updatePosition]
  split
  · rfl
  · next h =>
    push_neg at h
    cases st
    obtain ⟨h1, h2⟩ := h
    dsimp only at h1 h2
    subst h1
    simp [h2]

theorem updatePosition_fst_valid (rows : Int) (cols : ColsSpec) (st p : FocusPosition)
    (hr : 1 ≤ rows) : validPos rows cols (updatePosition rows cols st p).1 := by
  rw [updatePosition_fst]
  unfold validPos
  dsimp only
  constructor
  · omega
  refine ⟨by omega, by omega, ?_⟩
  have h := le_max_left (1 : Int) (getMaxCols cols (max 0 (min (rows - 1) p.row)))
  have h2 := le_max_right (1 : Int) (getMaxCols cols (max 0 (min (rows - 1) p.row)))
  omega

theorem navigate_fst_valid (cfg : NavConfig) (st : FocusPosition) (d : Direction)
    (hr : 1 ≤ cfg.rows) (hst : validPos cfg.rows cfg.cols st) :
    validPos cfg.rows cfg.cols (navigate cfg st d).1 := by
  unfold navigate
  split
  · exact hst
  cases d <;> dsimp only <;> split
  · exact updatePosition_fst_valid _ _ _ _ hr
  · split
    · exact updatePosition_fst_valid _ _ _ _ hr
    · exact hst
  · exact updatePosition_fst_valid _ _ _ _ hr
  · split
    · exact updatePosition_fst_valid _ _ _ _ hr
    · exact hst
  · exact updatePosition_fst_valid _ _ _ _ hr
  · split
    · exact updatePosition_fst_valid _ _ _ _ hr
    · exact hst
  · exact updatePosition_fst_valid _ _ _ _ hr
  · split
    · exact updatePosition_fst_valid _ _ _ _ hr
    · exact hst

theorem moveFocusSeq_valid (cfg : NavConfig) (hr : 1 ≤ cfg.rows) (ds : List Direction) :
    ∀ st : FocusPosition, validPos cfg.rows cfg.cols st →
      validPos cfg.rows cfg.cols (moveFocusSeq cfg st ds) := by
  unfold moveFocusSeq
  induction ds with
  | nil => exact fun st hst => hst
  | cons d ds ih =>
    exact fun st hst => ih _ (navigate_fst_valid cfg st d hr hst)

/-- C1: for any configuration with at least one row, starting from `{row 0, col 0}`,
after any finite sequence of `moveFocus` calls the stored position satisfies
`0 ≤ row < totalRows` and `0 ≤ col < max 1 (lengthOf row)`. -/
theorem focus_position_invariant (cfg : NavConfig) (hr : 1 ≤ cfg.rows) (ds : List Direction) :
    validPos cfg.rows cfg.cols (moveFocusSeq cfg ⟨0, 0⟩ ds) := by
  apply moveFocusSeq_valid cfg hr ds
  unfold validPos
  dsimp only
  refine ⟨le_refl 0, hr, le_refl 0, ?_⟩
  have h := le_max_left (1 : Int) (getMaxCols cfg.cols 0)
  omega

theorem focus_position_invariant_witness :
    1 ≤ (2 : Int) ∧
      validPos 2 (ColsSpec.arr [3, 0])
        (moveFocusSeq ⟨2, ColsSpec.arr [3, 0], true, false⟩ ⟨0, 0⟩
          [Direction.right, Direction.down, Direction.right, Direction.up]) :=
  ⟨by decide,
    focus_position_invariant ⟨2, ColsSpec.arr [3, 0], true, false⟩ (by decide)
      [Direction.right, Direction.down, Direction.right, Direction.up]⟩

/-- The row an Up/Down command lands on, read off the branch structure of
`navigate`: a clamped one-step move, or a wrap to the opposite end when
`wrap` is enabled, or `none` when the command does not move the row. -/
def landingRow (cfg : NavConfig) (st : FocusPosition) : Direction → Option Int
  | Direction.up =>
    if 0 < st.row then some (st.row - 1)
    else if cfg.wrap then some (cfg.rows - 1) else none
  | Direction.down =>
    if st.row < cfg.rows - 1 then some (st.row + 1)
    else if cfg.wrap then some 0 else none
  | Direction.left => none
  | Direction.right => none

/-- C3: whenever an Up/Down command lands on row `r`, the resulting column is
`min(currentCol, lengthOf(r) - 1)` floored at `0`; in particular, when
`lengthOf(r) = 0` the resulting column is exactly `0`. -/
theorem updown_column_reclamp (cfg : NavConfig) (st : FocusPosition) (d : Direction) (r : Int)
    (he : cfg.enabled = true) (hr : 1 ≤ cfg.rows) (hv : validPos cfg.rows cfg.cols st)
    (hl : landingRow cfg st d = some r) :
    (navigate cfg st d).1 = ⟨r, max 0 (min st.col (getMaxCols cfg.cols r - 1))⟩ ∧
      (getMaxCols cfg.cols r = 0 → (navigate cfg st d).1.col = 0) := by
  obtain ⟨hv1, hv2, hv3, hv4⟩ := hv
  have key : (navigate cfg st d).1 = ⟨r, max 0 (min st.col (getMaxCols cfg.cols r - 1))⟩ := by
    unfold navigate
    rw [if_neg (show ¬(cfg.enabled = false) by simp [he])]
    cases d <;> simp only [landingRow] at hl <;> dsimp only
    · split at hl
      · next hrow =>
        have hre := Option.some.inj hl
        subst hre
        rw [if_pos hrow, updatePosition_fst]
        rw [show max 0 (min (cfg.rows - 1) (st.row - 1)) = st.row - 1 by omega]
        rw [FocusPosition.mk.injEq]
        exact ⟨rfl, by dsimp only; omega⟩
      · next hrow =>
        split at hl
        · next hwrap =>
          have hre := Option.some.inj hl
          subst hre
          rw [if_neg hrow, if_pos hwrap, updatePosition_fst]
          rw [show max 0 (min (cfg.rows - 1) (cfg.rows - 1)) = cfg.rows - 1 by omega]
          rw [FocusPosition.mk.injEq]
          exact ⟨rfl, by dsimp only; omega⟩
        · exact absurd hl (by simp)
    · split at hl
      · next hrow =>
        have hre := Option.some.inj hl
        subst hre
        rw [if_pos hrow, updatePosition_fst]
        rw [show max 0 (min (cfg.rows - 1) (st.row + 1)) = st.row + 1 by omega]
        rw [FocusPosition.mk.injEq]
        exact ⟨rfl, by dsimp only; omega⟩
      · next hrow =>
        split at hl
        · next hwrap =>
          have hre := Option.some.inj hl
          subst hre
          rw [if_neg hrow, if_pos hwrap, updatePosition_fst]
          rw [show max 0 (min (cfg.rows - 1) (0 : Int)) = 0 by omega]
          rw [FocusPosition.mk.injEq]
          exact ⟨rfl, by dsimp only; omega⟩
        · exact absurd hl (by simp)
    · exact absurd hl (by simp)
    · exact absurd hl (by simp)
  refine ⟨key, fun hz => ?_⟩
  rw [key, hz]
  dsimp only
  omega

theorem updown_column_reclamp_witness :
    (⟨3, ColsSpec.arr [4, 0, 2], true, false⟩ : NavConfig).enabled = true ∧
      (navigate ⟨3, ColsSpec.arr [4, 0, 2], true, false⟩ ⟨0, 3⟩ Direction.down).1 =
        ⟨1, max 0 (min (3 : Int) (getMaxCols (ColsSpec.arr [4, 0, 2]) 1 - 1))⟩ :=
  ⟨rfl,
    (updown_column_reclamp ⟨3, ColsSpec.arr [4, 0, 2], true, false⟩ ⟨0, 3⟩ Direction.down 1
      rfl (by decide) (by decide) (by decide)).1⟩

/-- C4: a `moveFocus (Up)` at `row = 0` with wrap-around disabled leaves the
position unchanged and fires no focus-change notification; in general a
command fires the notification exactly once when the (clamped) result differs
from the current position and not at all otherwise. -/
theorem noop_navigation_no_notify :
    (∀ (cfg : NavConfig) (st : FocusPosition), cfg.wrap = false → st.row = 0 →
        navigate cfg st Direction.up = (st, 0)) ∧
    (∀ (cfg : NavConfig) (st : FocusPosition) (d : Direction),
        (navigate cfg st d).2 = if (navigate cfg st d).1 = st then 0 else 1) := by
  have hup : ∀ (rows : Int) (cols : ColsSpec) (st p : FocusPosition),
      (updatePosition rows cols st p).2 =
        if (updatePosition rows cols st p).1 = st then 0 else 1 := by
    intro rows cols st p
    simp only [updatePosition]
    split
    · next h =>
      rw [if_neg]
      intro hc
      cases st
      rw [FocusPosition.mk.injEq] at hc
      dsimp only at h hc
      omega
    · simp
  constructor
  · intro cfg st hw h0
    unfold navigate
    split
    · rfl
    · simp [h0, hw]
  · intro cfg st d
    unfold navigate
    split
    · simp
    cases d <;> dsimp only <;> split
    · exact hup _ _ _ _
    · split
      · exact hup _ _ _ _
      · simp
    · exact hup _ _ _ _
    · split
      · exact hup _ _ _ _
      · simp
    · exact hup _ _ _ _
    · split
      · exact hup _ _ _ _
      · simp
    · exact hup _ _ _ _
    · split
      · exact hup _ _ _ _
      · simp

theorem noop_navigation_no_notify_witness :
    navigate ⟨4, ColsSpec.arr [5, 5, 5, 5], true, false⟩ ⟨0, 2⟩ Direction.up = (⟨0, 2⟩, 0) :=
  noop_navigation_no_notify.1 ⟨4, ColsSpec.arr [5, 5, 5, 5], true, false⟩ ⟨0, 2⟩ rfl rfl

end RokuNav

/-!
Data model from `types/disney.types.ts`, restricted to the fields the core
inspects.  A JS object whose key set varies (the ref-set `data` envelope) is
modelled as an association list in key order; optional/possibly-missing fields
are `Option`s.
-/

namespace Disney

structure ContentItem where
  contentId : String
deriving Repr, DecidableEq

/-- One value of the ref-set `data` envelope: the object found under a
top-level key, carrying an optional `items` list. -/
structure SetData where
  items : Option (List ContentItem)
deriving Repr, DecidableEq

/-- `RefSetData`: `{ data: { <varying key>: { items: [...] } } }`. -/
structure RefSetData where
  data : Option (List (String × SetData))
deriving Repr, DecidableEq

/-- One title variant of the nested `text.title.full` lookup structure; the
leaf `default.content` string, when the variant is present. -/
structure TitleFull where
  series : Option String
  program : Option String
  collection : Option String
  set : Option String
  default : Option String
deriving Repr, DecidableEq

structure TitleBlock where
  full : TitleFull
deriving Repr, DecidableEq

structure TextContent where
  title : TitleBlock
deriving Repr, DecidableEq

end Disney

namespace ContentRow

open Disney

/-- JS `a || b` on an optional string `a`: `a` is used when present and
non-empty (truthy), otherwise `b`. -/
def jsOrS (x : Option String) (y : String) : String :=
  match x with
  | some s => if s = "" then y else s
  | none => y

/-- The row title computed in `ContentRow.tsx`:
`set.text?.title?.full?.set?.default?.content ||
 set.text?.title?.full?.collection?.default?.content ||
 set.text?.title?.full?.default?.content || "Collection " + (rowIndex+1)`. -/
def rowTitle (text : TextContent) (rowIndex : Nat) : String :=
  jsOrS text.title.full.set
    (jsOrS text.title.full.collection
      (jsOrS text.title.full.default ("Collection " ++ toString (rowIndex + 1))))

/-- The title-extraction order stated by the specification: `series-title`,
then `collection-title`, then `generic-title`, returning the first variant
present, else the synthesized label. -/
def rowTitleSpec (text : TextContent) (rowIndex : Nat) : String :=
  match text.title.full.series with
  | some s => s
  | none =>
    match text.title.full.collection with
    | some s => s
    | none =>
      match text.title.full.default with
      | some s => s
      | none => "Collection " ++ toString (rowIndex + 1)

/-- A title variant that JS `||` skips over: absent or empty. -/
def blankVariant (x : Option String) : Prop :=
  x = none ∨ x = some ("")

instance (x : Option String) : Decidable (blankVariant x) := by
  unfold blankVariant
  exact inferInstance

/-- C9 counterexample: the code never consults the `series` variant.  On a
row descriptor whose title structure has only `series` populated, the code
synthesizes `"Collection 1"` while the claimed chain would return the series
title. -/
theorem title_chain_counterexample :
    rowTitle ⟨⟨⟨some ("The Mandalorian"), none, none, none, none⟩⟩⟩ 0 = "Collection 1" ∧
      rowTitleSpec ⟨⟨⟨some ("The Mandalorian"), none, none, none, none⟩⟩⟩ 0 = "The Mandalorian" ∧
      rowTitle ⟨⟨⟨some ("The Mandalorian"), none, none, none, none⟩⟩⟩ 0 ≠
        rowTitleSpec ⟨⟨⟨some ("The Mandalorian"), none, none, none, none⟩⟩⟩ 0 := by
  refine ⟨rfl, rfl, ?_⟩
  decide

/-- C9 (amended): the display title is obtained by attempting, in order, the
`set`-title variant, the `collection`-title variant and the generic
(`default`) title variant — each used when present with non-empty content —
falling back to the synthesized `"Collection N"` label with `N` the row's
1-based ordinal. -/
theorem title_fallback_chain (t : TextContent) (i : Nat) :
    (∀ s, t.title.full.set = some s → s ≠ "" → rowTitle t i = s) ∧
    (blankVariant t.title.full.set →
      ∀ s, t.title.full.collection = some s → s ≠ "" → rowTitle t i = s) ∧
    (blankVariant t.title.full.set → blankVariant t.title.full.collection →
      ∀ s, t.title.full.default = some s → s ≠ "" → rowTitle t i = s) ∧
    (blankVariant t.title.full.set → blankVariant t.title.full.collection →
      blankVariant t.title.full.default →
      rowTitle t i = "Collection " ++ toString (i + 1)) := by
  refine ⟨?_, ?_, ?_, ?_⟩
  · intro s hs hne
    unfold rowTitle
    rw [hs]
    simp [jsOrS, hne]
  · rintro (hb | hb) s hs hne <;>
      · unfold rowTitle
        rw [hb, hs]
        simp [jsOrS, hne]
  · rintro (hb | hb) (hc | hc) s hs hne <;>
      · unfold rowTitle
        rw [hb, hc, hs]
        simp [jsOrS, hne]
  · rintro (hb | hb) (hc | hc) (hd | hd) <;>
      · unfold rowTitle
        rw [hb, hc, hd]
        simp [jsOrS]

theorem title_fallback_chain_witness :
    rowTitle ⟨⟨⟨none, none, some ("Originals"), none, none⟩⟩⟩ 4 = "Originals" :=
  (title_fallback_chain ⟨⟨⟨none, none, some ("Originals"), none, none⟩⟩⟩ 4).2.1
    (Or.inl rfl) ("Originals") rfl (by decide)

/-- The item extraction in `ContentRow.tsx` `loadRefSet`:
`if (refData.data) { const dataKeys = Object.keys(refData.data);
 const setData = refData.data[dataKeys[0]]; items = setData?.items || [] }`. -/
def extractItems (refData : RefSetData) : List ContentItem :=
  match refData.data with
  | none => []
  | some kvs =>
    match (kvs.map Prod.fst).head? with
    | none => []
    | some k =>
      match kvs.lookup k with
      | none => []
      | some sd => sd.items.getD []

/-- The extraction rule stated by the specification: the first top-level key
whose value is non-empty is used, and its `items` list is taken. -/
def extractItemsSpec (refData : RefSetData) : List ContentItem :=
  match refData.data with
  | none => []
  | some kvs =>
    match kvs.find? (fun kv => !(kv.2.items.getD []).isEmpty) with
    | some kv => kv.2.items.getD []
    | none => []

/-- C7 counterexample: on a response whose first top-level key holds an empty
item list and whose second key holds the content, the code returns the empty
list (it always uses the first key), while the claimed first-non-empty-key
rule would return the second key's items. -/
theorem extract_first_key_counterexample :
    extractItems ⟨some [(("CuratedSet"), ⟨some []⟩), (("TrendingSet"), ⟨some [⟨"c1"⟩]⟩)]⟩ = [] ∧
      extractItemsSpec ⟨some [(("CuratedSet"), ⟨some []⟩), (("TrendingSet"), ⟨some [⟨"c1"⟩]⟩)]⟩ =
        [⟨"c1"⟩] ∧
      extractItems ⟨some [(("CuratedSet"), ⟨some []⟩), (("TrendingSet"), ⟨some [⟨"c1"⟩]⟩)]⟩ ≠
        extractItemsSpec ⟨some [(("CuratedSet"), ⟨some []⟩), (("TrendingSet"), ⟨some [⟨"c1"⟩]⟩)]⟩ := by
  refine ⟨rfl, by decide, by decide⟩

/-- C7 (amended): the row's item list is extracted from the first top-level
key of the response's `data` object — whether or not it is non-empty — taking
the `items` list beneath it (empty when `items` is missing); an absent or
empty `data` object yields the empty list. -/
theorem extract_first_key (rd : RefSetData) (k : String) (sd : SetData)
    (rest : List (String × SetData)) (h : rd.data = some ((k, sd) :: rest)) :
    extractItems rd = sd.items.getD [] := by
  unfold extractItems
  rw [h]
  simp [List.lookup]

theorem extract_first_key_witness :
    extractItems ⟨some [(("PersonalizedCuratedSet"), ⟨some [⟨"m1"⟩, ⟨"m2"⟩]⟩)]⟩ =
      (⟨some [⟨"m1"⟩, ⟨"m2"⟩]⟩ : SetData).items.getD [] :=
  extract_first_key ⟨some [(("PersonalizedCuratedSet"), ⟨some [⟨"m1"⟩, ⟨"m2"⟩]⟩)]⟩
    ("PersonalizedCuratedSet") ⟨some [⟨"m1"⟩, ⟨"m2"⟩]⟩ [] rfl

/-- `const tileWidth = 300 + 20 // width + gap` from the scroll-to-focused
effect in `ContentRow.tsx`. -/
def tileWidth : ℚ := 300 + 20

/-- The scroll-to-focused effect of `ContentRow.tsx`: when `focusedCol ≥ 0`
and the row has items, scroll to
`max(0, focusedCol * tileWidth - containerWidth / 2 + tileWidth / 2)`;
otherwise no scroll is applied. -/
def scrollToFocused (focusedCol : Int) (containerWidth : ℚ) (numItems : Nat) : Option ℚ :=
  if 0 ≤ focusedCol ∧ 0 < numItems then
    some (max 0 ((focusedCol : ℚ) * tileWidth - containerWidth / 2 + tileWidth / 2))
  else none

/-- C8: for every focused column `c ≥ 0`, tile width `W = 300`, gap `G = 20`
and viewport width `V`, the applied horizontal scroll offset is
`max(0, c*(W+G) - V/2 + (W+G)/2)`, a pure function of these inputs. -/
theorem scroll_centering_formula (c : Int) (V : ℚ) (n : Nat) (W G : ℚ)
    (hc : 0 ≤ c) (hn : 0 < n) (hW : W = 300) (hG : G = 20) :
    scrollToFocused c V n = some (max 0 ((c : ℚ) * (W + G) - V / 2 + (W + G) / 2)) := by
  subst hW
  subst hG
  unfold scrollToFocused
  rw [if_pos ⟨hc, hn⟩]
  norm_num [tileWidth]

theorem scroll_centering_formula_witness :
    scrollToFocused 2 1000 5 =
      some (max 0 ((2 : ℚ) * ((300 : ℚ) + 20) - (1000 : ℚ) / 2 + ((300 : ℚ) + 20) / 2)) :=
  scroll_centering_formula 2 1000 5 300 20 (by decide) (by decide) rfl rfl

/-!
The deferred-row (ref-set) loading state machine of `ContentRow.tsx`.  The
component state is the four `useState` cells; the `loadRefSet` effect body is
modelled as one atomic step (the single-threaded event loop runs it without
interleaving up to its one `await`, and while the fetch is pending
`isLoadingRefSet = true` makes any other effect run a no-op, so atomicity is
faithful for counting fetches).  The fetch outcome is an oracle supplied with
the effect-run event; the `Nat` counts `apiService.getRefSetData` calls.
-/

structure RowCfg where
  rowIndex : Nat
  setType : String
  refId : Option String
deriving Repr, DecidableEq

structure RowState where
  isLoadingRefSet : Bool
  refSetItems : List Disney.ContentItem
  refSetError : Option String
  isInView : Bool
deriving Repr, DecidableEq

/-- JS truthiness of the optional `set.refId` string. -/
def truthyRefId : Option String → Bool
  | none => false
  | some s => !(s == "")

/-- `const isRefSet = set.type === "SetRef" && set.refId`. -/
def rowIsRefSet (cfg : RowCfg) : Bool :=
  (cfg.setType == "SetRef") && truthyRefId cfg.refId

/-- One run of the `loadRefSet` effect: the guard
`if (!isRefSet || !set.refId || refSetItems.length > 0 || isLoadingRefSet) return`,
then `shouldLoad = rowIndex < 3 || isInView`, then the fetch with its
success/failure state updates.  Second component counts fetch invocations. -/
def loadRefSetStep (cfg : RowCfg) (st : RowState)
    (fetch : Except String (List Disney.ContentItem)) : RowState × Nat :=
  if rowIsRefSet cfg = false ∨ truthyRefId cfg.refId = false ∨
      0 < st.refSetItems.length ∨ st.isLoadingRefSet = true then (st, 0)
  else if ¬(cfg.rowIndex < 3 ∨ st.isInView = true) then (st, 0)
  else
    match fetch with
    | Except.ok items =>
        ({ st with refSetItems := items, refSetError := none, isLoadingRefSet := false }, 1)
    | Except.error _ =>
        ({ st with refSetError := some ("Failed to load content"), isLoadingRefSet := false }, 1)

/-- External stimuli of a row: a visibility signal (from the intersection
observer or the scroll fallback, both of which just set `isInView := true`),
or a run of the `loadRefSet` effect with a given fetch outcome. -/
inductive RowEvent where
  | becomeVisible : RowEvent
  | effectRun : Except String (List Disney.ContentItem) → RowEvent

def rowStep (cfg : RowCfg) (st : RowState) : RowEvent → RowState × Nat
  | RowEvent.becomeVisible => ({ st with isInView := true }, 0)
  | RowEvent.effectRun r => loadRefSetStep cfg st r

/-- Run a sequence of row events, accumulating the number of
`getRefSetData` invocations. -/
def runRowEvents (cfg : RowCfg) : RowState → List RowEvent → RowState × Nat
  | st, [] => (st, 0)
  | st, e :: evs =>
    let p := rowStep cfg st e
    let q := runRowEvents cfg p.1 evs
    (q.1, p.2 + q.2)

/-- The initial component state: not loading, no items, no error, not in view. -/
def initialRowState : RowState := ⟨false, [], none, false⟩

/-- C2 counterexample: a deferred row (row index 3, ref id present) becomes
visible, its fetch fails, and the next effect re-trigger fetches AGAIN — two
`getRefSetData` invocations in one lifetime, so the fetch is not at-most-once
and the Failed state is not terminal. -/
theorem deferred_refetch_after_failure_counterexample :
    (runRowEvents ⟨3, "SetRef", some ("ref123")⟩ initialRowState
        [RowEvent.becomeVisible, RowEvent.effectRun (Except.error ("Timeout")),
          RowEvent.effectRun (Except.error ("Timeout"))]).2 = 2 := by
  decide

/-- C2 (amended): a new fetch is never started while the row holds a
non-empty item list — once a fetch has delivered items, no sequence of
visibility signals or effect re-runs ever invokes `getRefSetData` again.
(After a failure, or a fetch that delivered zero items, a re-trigger DOES
re-attempt the fetch, as the counterexample shows.) -/
theorem deferred_no_refetch_after_items (cfg : RowCfg) (st : RowState)
    (h : st.refSetItems ≠ []) (evs : List RowEvent) :
    (runRowEvents cfg st evs).2 = 0 := by
  induction evs generalizing st with
  | nil => rfl
  | cons e evs ih =>
    cases e with
    | becomeVisible =>
      simp only [runRowEvents, rowStep]
      rw [Nat.zero_add]
      exact ih { st with isInView := true } h
    | effectRun r =>
      have hstep : loadRefSetStep cfg st r = (st, 0) := by
        unfold loadRefSetStep
        rw [if_pos (Or.inr (Or.inr (Or.inl (List.length_pos.mpr h))))]
      simp only [runRowEvents, rowStep, hstep]
      rw [Nat.zero_add]
      exact ih st h

theorem deferred_no_refetch_after_items_witness :
    (runRowEvents ⟨0, "SetRef", some ("r")⟩ ⟨false, [⟨"a"⟩], none, true⟩
        [RowEvent.effectRun (Except.ok []), RowEvent.becomeVisible,
          RowEvent.effectRun (Except.error ("boom"))]).2 = 0 :=
  deferred_no_refetch_after_items ⟨0, "SetRef", some ("r")⟩ ⟨false, [⟨"a"⟩], none, true⟩
    (by decide) _

end ContentRow

/-!
The `ApiService` of `api.service.ts`.  Its `Map<string, {data, timestamp,
ttl}>` cache is modelled as an association list with unique keys in insertion
order (`mapGet` / `mapSet` / `mapDelete` are the JS `Map` operations used).
The wall clock (`Date.now()`) and the network are passed explicitly: `now` is
the current time in milliseconds, and `net : String → Option RefSetData` is
the outcome the network would deliver for each ref id (`none` = transport
failure / timeout).  Async methods return `Except` for thrown errors, paired
with the cache state after the call.
-/

namespace ApiService

open Disney

structure CEntry (α : Type) where
  data : α
  timestamp : Int
  ttl : Int
deriving Repr, DecidableEq

def mapGet {α : Type} : List (String × α) → String → Option α
  | [], _ => none
  | (k', v) :: rest, k => if k' = k then some v else mapGet rest k

def mapSet {α : Type} : List (String × α) → String → α → List (String × α)
  | [], k, v => [(k, v)]
  | (k', v') :: rest, k, v =>
    if k' = k then (k, v) :: rest else (k', v') :: mapSet rest k v

def mapDelete {α : Type} : List (String × α) → String → List (String × α)
  | [], _ => []
  | (k', v') :: rest, k =>
    if k' = k then mapDelete rest k else (k', v') :: mapDelete rest k

/-- `checkCache`: return the entry's data while `now - timestamp < ttl`;
otherwise delete the entry (lazy expiry) and report a miss.  Returns the
lookup result together with the cache after the call. -/
def checkCache {α : Type} (now : Int) (c : List (String × CEntry α)) (key : String) :
    Option α × List (String × CEntry α) :=
  match mapGet c key with
  | none => (none, c)
  | some e => if now - e.timestamp < e.ttl then (some e.data, c) else (none, mapDelete c key)

/-- `setCache`: store `{data, timestamp: now, ttl}` under `key`. -/
def setCache {α : Type} (now : Int) (c : List (String × CEntry α)) (key : String) (d : α)
    (ttlMs : Int) : List (String × CEntry α) :=
  mapSet c key ⟨d, now, ttlMs⟩

theorem mapGet_mapSet_self {α : Type} (c : List (String × α)) (k : String) (v : α) :
    mapGet (mapSet c k v) k = some v := by
  induction c with
  | nil => simp [mapGet, mapSet]
  | cons p rest ih =>
    obtain ⟨k', v'⟩ := p
    by_cases h : k' = k
    · simp [mapGet, mapSet, h]
    · simp [mapGet, mapSet, h, ih]

theorem mapGet_mapSet_ne {α : Type} (c : List (String × α)) (k k' : String) (v : α)
    (h : k' ≠ k) : mapGet (mapSet c k v) k' = mapGet c k' := by
  have hkk : ¬k = k' := fun hc => h hc.symm
  induction c with
  | nil =>
    simp only [mapSet, mapGet]
    rw [if_neg hkk]
  | cons p rest ih =>
    obtain ⟨k0, v0⟩ := p
    by_cases h0 : k0 = k
    · subst h0
      simp only [mapSet, if_pos rfl, mapGet]
      rw [if_neg hkk, if_neg hkk]
    · simp only [mapSet, if_neg h0, mapGet]
      by_cases h1 : k0 = k'
      · rw [if_pos h1, if_pos h1]
      · rw [if_neg h1, if_neg h1]
        exact ih

theorem mapGet_mapDelete_self {α : Type} (c : List (String × α)) (k : String) :
    mapGet (mapDelete c k) k = none := by
  induction c with
  | nil => simp [mapGet, mapDelete]
  | cons p rest ih =>
    obtain ⟨k', v'⟩ := p
    by_cases h : k' = k
    · simp [mapDelete, h, ih]
    · simp [mapGet, mapDelete, h, ih]

theorem mapGet_mapDelete_ne {α : Type} (c : List (String × α)) (k k' : String) (h : k' ≠ k) :
    mapGet (mapDelete c k) k' = mapGet c k' := by
  have hkk : ¬k = k' := fun hc => h hc.symm
  induction c with
  | nil => rfl
  | cons p rest ih =>
    obtain ⟨k0, v0⟩ := p
    by_cases h0 : k0 = k
    · subst h0
      simp only [mapDelete, if_pos rfl, mapGet]
      rw [if_neg hkk]
      exact ih
    · simp only [mapDelete, if_neg h0, mapGet]
      by_cases h1 : k0 = k'
      · rw [if_pos h1, if_pos h1]
      · rw [if_neg h1, if_neg h1]
        exact ih

/-- C5: a value stored at time `t0` with time-to-live `ttl` is returned (with
the cache untouched) by any lookup at time `t` with `t - t0 < ttl`, and any
lookup at `t` with `t - t0 ≥ ttl` misses and deletes the entry — lazy expiry,
no background sweeper. -/
theorem cache_ttl_expiry {α : Type} (c : List (String × CEntry α)) (key : String) (d : α)
    (ttl t0 t : Int) :
    (t - t0 < ttl →
      checkCache t (setCache t0 c key d ttl) key = (some d, setCache t0 c key d ttl)) ∧
    (ttl ≤ t - t0 →
      (checkCache t (setCache t0 c key d ttl) key).1 = none ∧
        mapGet (checkCache t (setCache t0 c key d ttl) key).2 key = none) := by
  have hget : mapGet (setCache t0 c key d ttl) key = some ⟨d, t0, ttl⟩ :=
    mapGet_mapSet_self c key ⟨d, t0, ttl⟩
  constructor
  · intro hlt
    unfold checkCache
    rw [hget]
    dsimp only
    rw [if_pos hlt]
  · intro hge
    unfold checkCache
    rw [hget]
    dsimp only
    rw [if_neg (by omega)]
    exact ⟨rfl, mapGet_mapDelete_self _ _⟩

theorem cache_ttl_expiry_witness :
    checkCache 299 (setCache 0 ([] : List (String × CEntry Int)) ("home_data") 7 300) ("home_data") =
        (some 7, setCache 0 ([] : List (String × CEntry Int)) ("home_data") 7 300) ∧
      (checkCache 300 (setCache 0 ([] : List (String × CEntry Int)) ("home_data") 7 300)
          ("home_data")).1 = none :=
  ⟨(cache_ttl_expiry ([] : List (String × CEntry Int)) ("home_data") 7 300 0 299).1 (by decide),
    ((cache_ttl_expiry ([] : List (String × CEntry Int)) ("home_data") 7 300 0 300).2
        (by decide)).1⟩

/-- The cache key for a ref set: `"refset_" + refId`. -/
def refSetKey (refId : String) : String := "refset_" ++ refId

abbrev RefCache := List (String × CEntry RefSetData)

/-- `getRefSetData(refId)`: throw `"Invalid refId"` on a falsy id; otherwise
check the cache, and on a miss hit the network, validate that the payload has
a `data` object, cache it for 5 minutes and return it.  Thrown errors are
modelled as `Except.error`; the second component is the cache after the
call. -/
def getRefSetData (net : String → Option RefSetData) (now : Int) (c : RefCache)
    (refId : String) : Except String RefSetData × RefCache :=
  if refId = "" then (Except.error ("Invalid refId"), c)
  else
    match checkCache now c (refSetKey refId) with
    | (some d, c1) => (Except.ok d, c1)
    | (none, c1) =>
      match net refId with
      | none => (Except.error ("Failed to fetch"), c1)
      | some d =>
        if d.data = none then (Except.error ("Invalid ref set data structure"), c1)
        else (Except.ok d, setCache now c1 (refSetKey refId) d 300000)

/-- C10: calling `getRefSetData` with an empty (falsy) `refId` fails
immediately with the `Invalid refId` error, independently of the network, and
leaves the cache exactly as it was (no lookup, no store). -/
theorem getRefSetData_invalid_refid (net : String → Option RefSetData) (now : Int)
    (c : RefCache) : getRefSetData net now c "" = (Except.error ("Invalid refId"), c) := by
  unfold getRefSetData
  rw [if_pos rfl]

/-- `batchLoadRefSets` phase 1: `refIds.filter(id => !this.checkCache(...))`,
with the cache threaded through (an expired entry hit by the check is
deleted). -/
def filterUncached (now : Int) : RefCache → List String → List String × RefCache
  | c, [] => ([], c)
  | c, id :: rest =>
    let pr := checkCache now c (refSetKey id)
    let rec1 := filterUncached now pr.2 rest
    match pr.1 with
    | none => (id :: rec1.1, rec1.2)
    | some _ => (rec1.1, rec1.2)

/-- `batchLoadRefSets` all-cached branch: for each id, re-check the cache and
add a hit to the result map. -/
def cachedLoop (now : Int) :
    RefCache → List (String × RefSetData) → List String → List (String × RefSetData) × RefCache
  | c, results, [] => (results, c)
  | c, results, id :: rest =>
    match checkCache now c (refSetKey id) with
    | (some d, c1) => cachedLoop now c1 (mapSet results id d) rest
    | (none, c1) => cachedLoop now c1 results rest

/-- `batchLoadRefSets` phase 2: fetch every uncached id via `getRefSetData`;
a success is recorded in the result map, a failure is swallowed.  The
deterministic network oracle makes the sequential order a faithful
linearization of the concurrent `Promise.all`. -/
def fetchLoop (net : String → Option RefSetData) (now : Int) :
    RefCache → List (String × RefSetData) → List String → List (String × RefSetData) × RefCache
  | c, results, [] => (results, c)
  | c, results, id :: rest =>
    match getRefSetData net now c id with
    | (Except.ok d, c1) => fetchLoop net now c1 (mapSet results id d) rest
    | (Except.error _, c1) => fetchLoop net now c1 results rest

/-- `batchLoadRefSets` phase 3: for each requested id not yet in the result
map, add its cached value if present. -/
def addCachedLoop (now : Int) :
    RefCache → List (String × RefSetData) → List String → List (String × RefSetData) × RefCache
  | c, results, [] => (results, c)
  | c, results, id :: rest =>
    if mapGet results id = none then
      match checkCache now c (refSetKey id) with
      | (some d, c1) => addCachedLoop now c1 (mapSet results id d) rest
      | (none, c1) => addCachedLoop now c1 results rest
    else addCachedLoop now c results rest

/-- `batchLoadRefSets(refIds)`: partition into cached/uncached, fetch the
uncached ids in parallel swallowing individual failures, then fill in cached
values; returns the result map and the final cache.  The call itself never
throws. -/
def batchLoadRefSets (net : String → Option RefSetData) (now : Int) (c : RefCache)
    (refIds : List String) : List (String × RefSetData) × RefCache :=
  let pr := filterUncached now c refIds
  if pr.1 = [] then cachedLoop now pr.2 ([]) refIds
  else
    let pr2 := fetchLoop net now pr.2 ([]) pr.1
    addCachedLoop now pr2.2 pr2.1 refIds

/-- What a cache read of key `k` at time `now` yields (ignoring the lazy
deletion side effect). -/
def lookVal {α : Type} (now : Int) (c : List (String × CEntry α)) (k : String) : Option α :=
  (checkCache now c k).1

/-- What the network delivers for a ref id once `getRefSetData`'s own
validation is taken into account: nothing for a falsy id, a transport
failure, or a payload without a `data` object. -/
def netVal (net : String → Option RefSetData) (id : String) : Option RefSetData :=
  if id = "" then none
  else
    match net id with
    | none => none
    | some d => if d.data = none then none else some d

/-- The payload C6 says a batch result should associate with a requested id:
its cached value if cached, else the network value if the fetch succeeds,
else nothing. -/
def expectedVal (net : String → Option RefSetData) (now : Int) (c : RefCache) (id : String) :
    Option RefSetData :=
  match lookVal now c (refSetKey id) with
  | some d => some d
  | none => netVal net id

theorem refSetKey_inj {a b : String} (h : refSetKey a = refSetKey b) : a = b := by
  unfold refSetKey at h
  have hd := congrArg String.data h
  rw [String.data_append, String.data_append] at hd
  exact String.ext (List.append_cancel_left hd)

/-- A `checkCache` call never changes what any later read at the same time
sees: a hit leaves the cache alone, and the lazy deletion only removes an
entry that already reads as absent. -/
theorem lookVal_checkCache {α : Type} (now : Int) (c : List (String × CEntry α))
    (k k' : String) : lookVal now (checkCache now c k).2 k' = lookVal now c k' := by
  unfold lookVal
  cases hm : mapGet c k with
  | none => simp only [checkCache, hm]
  | some e =>
    simp only [checkCache, hm]
    by_cases hlive : now - e.timestamp < e.ttl
    · rw [if_pos hlive]
    · rw [if_neg hlive]
      dsimp only
      by_cases hk : k' = k
      · subst hk
        simp only [checkCache, mapGet_mapDelete_self, hm]
        rw [if_neg hlive]
      · simp only [checkCache, mapGet_mapDelete_ne c k k' hk]
        cases mapGet c k' with
        | none => rfl
        | some e' =>
          dsimp only
          split <;> rfl

theorem lookVal_setCache_ne {α : Type} (now t0 : Int) (c : List (String × CEntry α))
    (k k' : String) (d : α) (ttl : Int) (h : k' ≠ k) :
    lookVal now (setCache t0 c k d ttl) k' = lookVal now c k' := by
  unfold lookVal checkCache setCache
  rw [mapGet_mapSet_ne c k k' _ h]
  cases mapGet c k' with
  | none => rfl
  | some e' =>
    dsimp only
    split <;> rfl

theorem lookVal_setCache_self {α : Type} (now t0 : Int) (c : List (String × CEntry α))
    (k : String) (d : α) (ttl : Int) (h : now - t0 < ttl) :
    lookVal now (setCache t0 c k d ttl) k = some d := by
  unfold lookVal checkCache setCache
  rw [mapGet_mapSet_self]
  dsimp only
  rw [if_pos h]

/-- The payload delivered by a non-throwing `getRefSetData` call. -/
def okPart : Except String RefSetData → Option RefSetData
  | Except.ok d => some d
  | Except.error _ => none

theorem getRefSetData_uncached_result (net : String → Option RefSetData) (now : Int)
    (c : RefCache) (id : String) (h : lookVal now c (refSetKey id) = none) :
    okPart (getRefSetData net now c id).1 = netVal net id := by
  unfold getRefSetData netVal
  by_cases hid : id = ""
  · rw [if_pos hid, if_pos hid]
    rfl
  rw [if_neg hid, if_neg hid]
  cases hcc : checkCache now c (refSetKey id) with
  | mk fst c1 =>
    have hfst : fst = none := by
      have := h
      unfold lookVal at this
      rw [hcc] at this
      exact this
    subst hfst
    dsimp only
    cases net id with
    | none => rfl
    | some d =>
      dsimp only
      by_cases hd : d.data = none
      · rw [if_pos hd, if_pos hd]
        rfl
      · rw [if_neg hd, if_neg hd]
        rfl

theorem getRefSetData_uncached_lookSelf (net : String → Option RefSetData) (now : Int)
    (c : RefCache) (id : String) (h : lookVal now c (refSetKey id) = none) :
    lookVal now ((getRefSetData net now c id).2) (refSetKey id) = netVal net id := by
  unfold getRefSetData netVal
  by_cases hid : id = ""
  · rw [if_pos hid, if_pos hid]
    exact h
  rw [if_neg hid, if_neg hid]
  cases hcc : checkCache now c (refSetKey id) with
  | mk fst c1 =>
    have hc1 : c1 = (checkCache now c (refSetKey id)).2 := by rw [hcc]
    have hlook : lookVal now c1 (refSetKey id) = none := by
      rw [hc1, lookVal_checkCache]
      exact h
    have hfst : fst = none := by
      have := h
      unfold lookVal at this
      rw [hcc] at this
      exact this
    subst hfst
    dsimp only
    cases net id with
    | none => exact hlook
    | some d =>
      dsimp only
      by_cases hd : d.data = none
      · rw [if_pos hd, if_pos hd]
        exact hlook
      · rw [if_neg hd, if_neg hd]
        dsimp only
        exact lookVal_setCache_self now now c1 (refSetKey id) d 300000 (by omega)

theorem getRefSetData_look_ne (net : String → Option RefSetData) (now : Int) (c : RefCache)
    (id x : String) (hx : x ≠ id) :
    lookVal now ((getRefSetData net now c id).2) (refSetKey x) =
      lookVal now c (refSetKey x) := by
  have hkey : refSetKey x ≠ refSetKey id := fun hc => hx (refSetKey_inj hc)
  unfold getRefSetData
  by_cases hid : id = ""
  · rw [if_pos hid]
  rw [if_neg hid]
  cases hcc : checkCache now c (refSetKey id) with
  | mk fst c1 =>
    have hc1 : lookVal now c1 (refSetKey x) = lookVal now c (refSetKey x) := by
      have : c1 = (checkCache now c (refSetKey id)).2 := by rw [hcc]
      rw [this, lookVal_checkCache]
    cases fst with
    | some d => exact hc1
    | none =>
      dsimp only
      cases net id with
      | none => exact hc1
      | some d =>
        dsimp only
        by_cases hd : d.data = none
        · rw [if_pos hd]
          exact hc1
        · rw [if_neg hd]
          dsimp only
          rw [lookVal_setCache_ne now now c1 (refSetKey id) (refSetKey x) d 300000 hkey]
          exact hc1

theorem filterUncached_spec (now : Int) (ids : List String) : ∀ c : RefCache,
    (filterUncached now c ids).1 =
      ids.filter (fun x => (lookVal now c (refSetKey x)).isNone) ∧
    (∀ k, lookVal now ((filterUncached now c ids).2) k = lookVal now c k) := by
  induction ids with
  | nil =>
    intro c
    exact ⟨rfl, fun k => rfl⟩
  | cons id rest ih =>
    intro c
    obtain ⟨ih1, ih2⟩ := ih ((checkCache now c (refSetKey id)).2)
    have hpres : ∀ k, lookVal now ((checkCache now c (refSetKey id)).2) k = lookVal now c k :=
      fun k => lookVal_checkCache now c (refSetKey id) k
    have hfe : (filterUncached now ((checkCache now c (refSetKey id)).2) rest).1 =
        rest.filter (fun x => (lookVal now c (refSetKey x)).isNone) := by
      rw [ih1]
      exact List.filter_congr (fun x _ => by rw [hpres (refSetKey x)])
    constructor
    · simp only [filterUncached]
      cases hl : (checkCache now c (refSetKey id)).1 with
      | none =>
        dsimp only
        have hp : (lookVal now c (refSetKey id)).isNone = true := by
          unfold lookVal
          rw [hl]
          rfl
        rw [List.filter_cons, if_pos hp, hfe]
      | some d =>
        dsimp only
        have hp : ¬(lookVal now c (refSetKey id)).isNone = true := by
          unfold lookVal
          rw [hl]
          simp
        rw [List.filter_cons, if_neg hp]
        exact hfe
    · intro k
      simp only [filterUncached]
      cases hl : (checkCache now c (refSetKey id)).1 with
      | none =>
        dsimp only
        rw [ih2 k, hpres k]
      | some d =>
        dsimp only
        rw [ih2 k, hpres k]

theorem fetchLoop_spec (net : String → Option RefSetData) (now : Int) (ids : List String) :
    ∀ (c : RefCache) (results : List (String × RefSetData)), ids.Nodup →
      (∀ x ∈ ids, lookVal now c (refSetKey x) = none) →
      (∀ id, mapGet (fetchLoop net now c results ids).1 id =
        if id ∈ ids then
          (match netVal net id with
           | some d => some d
           | none => mapGet results id)
        else mapGet results id) ∧
      (∀ x, lookVal now ((fetchLoop net now c results ids).2) (refSetKey x) =
        if x ∈ ids then netVal net x else lookVal now c (refSetKey x)) := by
  induction ids with
  | nil =>
    intro c results _ _
    constructor
    · intro id
      simp [fetchLoop]
    · intro x
      simp [fetchLoop]
  | cons id0 rest ih =>
    intro c results hnd hun
    have hnd0 : id0 ∉ rest := (List.nodup_cons.mp hnd).1
    have hndr : rest.Nodup := (List.nodup_cons.mp hnd).2
    have hu0 : lookVal now c (refSetKey id0) = none := hun id0 (List.mem_cons_self id0 rest)
    have hok := getRefSetData_uncached_result net now c id0 hu0
    have hself := getRefSetData_uncached_lookSelf net now c id0 hu0
    cases hg : getRefSetData net now c id0 with
    | mk res c1 =>
      rw [hg] at hok hself
      have hne : ∀ x, x ≠ id0 → lookVal now c1 (refSetKey x) = lookVal now c (refSetKey x) := by
        intro x hx
        have := getRefSetData_look_ne net now c id0 x hx
        rw [hg] at this
        exact this
      have hunr : ∀ x ∈ rest, lookVal now c1 (refSetKey x) = none := by
        intro x hx
        rw [hne x (fun hc => hnd0 (hc ▸ hx))]
        exact hun x (List.mem_cons_of_mem id0 hx)
      cases res with
      | ok d =>
        have hnet : netVal net id0 = some d := by
          rw [← hok]
          rfl
        obtain ⟨ihr, ihc⟩ := ih c1 (mapSet results id0 d) hndr hunr
        constructor
        · intro id
          have hstep : fetchLoop net now c results (id0 :: rest) =
              fetchLoop net now c1 (mapSet results id0 d) rest := by
            simp only [fetchLoop, hg]
          rw [hstep, ihr id]
          by_cases hid : id = id0
          · subst hid
            rw [if_neg hnd0, if_pos (List.mem_cons_self id rest), hnet]
            dsimp only
            exact mapGet_mapSet_self results id d
          · by_cases hmem : id ∈ rest
            · rw [if_pos hmem, if_pos (List.mem_cons_of_mem id0 hmem)]
              cases netVal net id with
              | some d' => rfl
              | none =>
                dsimp only
                exact mapGet_mapSet_ne results id0 id d hid
            · rw [if_neg hmem,
                if_neg (fun hc => (List.mem_cons.mp hc).elim (fun h1 => hid h1)
                  (fun h2 => hmem h2))]
              exact mapGet_mapSet_ne results id0 id d hid
        · intro x
          have hstep : fetchLoop net now c results (id0 :: rest) =
              fetchLoop net now c1 (mapSet results id0 d) rest := by
            simp only [fetchLoop, hg]
          rw [hstep, ihc x]
          by_cases hx0 : x = id0
          · subst hx0
            rw [if_neg hnd0, if_pos (List.mem_cons_self x rest), hself, hnet]
          · by_cases hmem : x ∈ rest
            · rw [if_pos hmem, if_pos (List.mem_cons_of_mem id0 hmem)]
            · rw [if_neg hmem,
                if_neg (fun hc => (List.mem_cons.mp hc).elim (fun h1 => hx0 h1)
                  (fun h2 => hmem h2))]
              exact hne x hx0
      | error e =>
        have hnet : netVal net id0 = none := by
          rw [← hok]
          rfl
        obtain ⟨ihr, ihc⟩ := ih c1 results hndr hunr
        constructor
        · intro id
          have hstep : fetchLoop net now c results (id0 :: rest) =
              fetchLoop net now c1 results rest := by
            simp only [fetchLoop, hg]
          rw [hstep, ihr id]
          by_cases hid : id = id0
          · subst hid
            rw [if_neg hnd0, if_pos (List.mem_cons_self id rest), hnet]
          · by_cases hmem : id ∈ rest
            · rw [if_pos hmem, if_pos (List.mem_cons_of_mem id0 hmem)]
            · rw [if_neg hmem,
                if_neg (fun hc => (List.mem_cons.mp hc).elim (fun h1 => hid h1)
                  (fun h2 => hmem h2))]
        · intro x
          have hstep : fetchLoop net now c results (id0 :: rest) =
              fetchLoop net now c1 results rest := by
            simp only [fetchLoop, hg]
          rw [hstep, ihc x]
          by_cases hx0 : x = id0
          · subst hx0
            rw [if_neg hnd0, if_pos (List.mem_cons_self x rest), hself, hnet]
          · by_cases hmem : x ∈ rest
            · rw [if_pos hmem, if_pos (List.mem_cons_of_mem id0 hmem)]
            · rw [if_neg hmem,
                if_neg (fun hc => (List.mem_cons.mp hc).elim (fun h1 => hx0 h1)
                  (fun h2 => hmem h2))]
              exact hne x hx0

theorem cachedLoop_spec (now : Int) (ids : List String) :
    ∀ (c : RefCache) (results : List (String × RefSetData)), ids.Nodup →
      ∀ id, mapGet (cachedLoop now c results ids).1 id =
        if id ∈ ids then
          (match lookVal now c (refSetKey id) with
           | some d => some d
           | none => mapGet results id)
        else mapGet results id := by
  induction ids with
  | nil =>
    intro c results _ id
    simp [cachedLoop]
  | cons id0 rest ih =>
    intro c results hnd id
    have hnd0 : id0 ∉ rest := (List.nodup_cons.mp hnd).1
    have hndr : rest.Nodup := (List.nodup_cons.mp hnd).2
    cases hcc : checkCache now c (refSetKey id0) with
    | mk fst c1 =>
      have hl : lookVal now c (refSetKey id0) = fst := by
        unfold lookVal
        rw [hcc]
      have hpres : ∀ k, lookVal now c1 k = lookVal now c k := by
        intro k
        have : c1 = (checkCache now c (refSetKey id0)).2 := by rw [hcc]
        rw [this, lookVal_checkCache]
      cases fst with
      | some d =>
        have hstep : cachedLoop now c results (id0 :: rest) =
            cachedLoop now c1 (mapSet results id0 d) rest := by
          simp only [cachedLoop, hcc]
        rw [hstep, ih c1 (mapSet results id0 d) hndr id]
        by_cases hid : id = id0
        · subst hid
          rw [if_neg hnd0, if_pos (List.mem_cons_self id rest), hl]
          dsimp only
          exact mapGet_mapSet_self results id d
        · by_cases hmem : id ∈ rest
          · rw [if_pos hmem, if_pos (List.mem_cons_of_mem id0 hmem), hpres (refSetKey id)]
            cases lookVal now c (refSetKey id) with
            | some d' => rfl
            | none =>
              dsimp only
              exact mapGet_mapSet_ne results id0 id d hid
          · rw [if_neg hmem,
              if_neg (fun hc => (List.mem_cons.mp hc).elim (fun h1 => hid h1)
                (fun h2 => hmem h2))]
            exact mapGet_mapSet_ne results id0 id d hid
      | none =>
        have hstep : cachedLoop now c results (id0 :: rest) = cachedLoop now c1 results rest := by
          simp only [cachedLoop, hcc]
        rw [hstep, ih c1 results hndr id]
        by_cases hid : id = id0
        · subst hid
          rw [if_neg hnd0, if_pos (List.mem_cons_self id rest), hl]
        · by_cases hmem : id ∈ rest
          · rw [if_pos hmem, if_pos (List.mem_cons_of_mem id0 hmem), hpres (refSetKey id)]
          · rw [if_neg hmem,
              if_neg (fun hc => (List.mem_cons.mp hc).elim (fun h1 => hid h1)
                (fun h2 => hmem h2))]

theorem addCachedLoop_spec (now : Int) (ids : List String) :
    ∀ (c : RefCache) (results : List (String × RefSetData)), ids.Nodup →
      ∀ id, mapGet (addCachedLoop now c results ids).1 id =
        if id ∈ ids then
          (match mapGet results id with
           | some d => some d
           | none => lookVal now c (refSetKey id))
        else mapGet results id := by
  induction ids with
  | nil =>
    intro c results _ id
    simp [addCachedLoop]
  | cons id0 rest ih =>
    intro c results hnd id
    have hnd0 : id0 ∉ rest := (List.nodup_cons.mp hnd).1
    have hndr : rest.Nodup := (List.nodup_cons.mp hnd).2
    by_cases hg0 : mapGet results id0 = none
    · cases hcc : checkCache now c (refSetKey id0) with
      | mk fst c1 =>
        have hl : lookVal now c (refSetKey id0) = fst := by
          unfold lookVal
          rw [hcc]
        have hpres : ∀ k, lookVal now c1 k = lookVal now c k := by
          intro k
          have : c1 = (checkCache now c (refSetKey id0)).2 := by rw [hcc]
          rw [this, lookVal_checkCache]
        cases fst with
        | some d =>
          have hstep : addCachedLoop now c results (id0 :: rest) =
              addCachedLoop now c1 (mapSet results id0 d) rest := by
            simp only [addCachedLoop, if_pos hg0, hcc]
          rw [hstep, ih c1 (mapSet results id0 d) hndr id]
          by_cases hid : id = id0
          · subst hid
            rw [if_neg hnd0, if_pos (List.mem_cons_self id rest), hg0, hl]
            dsimp only
            exact mapGet_mapSet_self results id d
          · by_cases hmem : id ∈ rest
            · rw [if_pos hmem, if_pos (List.mem_cons_of_mem id0 hmem),
                mapGet_mapSet_ne results id0 id d hid, hpres (refSetKey id)]
            · rw [if_neg hmem,
                if_neg (fun hc => (List.mem_cons.mp hc).elim (fun h1 => hid h1)
                  (fun h2 => hmem h2))]
              exact mapGet_mapSet_ne results id0 id d hid
        | none =>
          have hstep : addCachedLoop now c results (id0 :: rest) =
              addCachedLoop now c1 results rest := by
            simp only [addCachedLoop, if_pos hg0, hcc]
          rw [hstep, ih c1 results hndr id]
          by_cases hid : id = id0
          · subst hid
            rw [if_neg hnd0, if_pos (List.mem_cons_self id rest), hg0, hl]
          · by_cases hmem : id ∈ rest
            · rw [if_pos hmem, if_pos (List.mem_cons_of_mem id0 hmem), hpres (refSetKey id)]
            · rw [if_neg hmem,
                if_neg (fun hc => (List.mem_cons.mp hc).elim (fun h1 => hid h1)
                  (fun h2 => hmem h2))]
    · have hstep : addCachedLoop now c results (id0 :: rest) =
          addCachedLoop now c results rest := by
        simp only [addCachedLoop, if_neg hg0]
      rw [hstep, ih c results hndr id]
      by_cases hid : id = id0
      · subst hid
        rw [if_neg hnd0, if_pos (List.mem_cons_self id rest)]
        cases hm : mapGet results id with
        | some d => rfl
        | none => exact absurd hm hg0
      · by_cases hmem : id ∈ rest
        · rw [if_pos hmem, if_pos (List.mem_cons_of_mem id0 hmem)]
        · rw [if_neg hmem,
            if_neg (fun hc => (List.mem_cons.mp hc).elim (fun h1 => hid h1)
              (fun h2 => hmem h2))]

/-- C6: `batchLoadRefSets` (the method behind `batchFetchDeferredSets`) is
total — it always returns a map — and for every requested reference the map
holds its cached payload if it was cached, else the fetched payload if the
fetch succeeds, and is simply missing the reference if its fetch fails:
partial success, with per-reference failures swallowed. -/
theorem batch_partial_success (net : String → Option RefSetData) (now : Int) (c : RefCache)
    (refIds : List String) (hnd : refIds.Nodup) (id : String) (hm : id ∈ refIds) :
    mapGet (batchLoadRefSets net now c refIds).1 id = expectedVal net now c id := by
  obtain ⟨hf1, hf2⟩ := filterUncached_spec now refIds c
  simp only [batchLoadRefSets]
  split
  · next hempty =>
    rw [cachedLoop_spec now refIds _ ([]) hnd id, if_pos hm, hf2 (refSetKey id)]
    have hcached : ∃ d, lookVal now c (refSetKey id) = some d := by
      rw [hf1] at hempty
      have hni := List.filter_eq_nil_iff.mp hempty id hm
      cases hv : lookVal now c (refSetKey id) with
      | some d => exact ⟨d, rfl⟩
      | none => exact absurd (by rw [hv]; rfl) hni
    obtain ⟨d, hd⟩ := hcached
    rw [hd]
    unfold expectedVal
    rw [hd]
  · next hne =>
    have hnd_u : ((filterUncached now c refIds).1).Nodup := by
      rw [hf1]
      exact hnd.filter _
    have hun_u : ∀ x ∈ (filterUncached now c refIds).1,
        lookVal now ((filterUncached now c refIds).2) (refSetKey x) = none := by
      intro x hx
      rw [hf2 (refSetKey x)]
      rw [hf1] at hx
      have hpx := (List.mem_filter.mp hx).2
      cases hv : lookVal now c (refSetKey x) with
      | none => rfl
      | some d =>
        rw [hv] at hpx
        exact absurd hpx (by simp)
    obtain ⟨hfr, hfc⟩ :=
      fetchLoop_spec net now ((filterUncached now c refIds).1)
        ((filterUncached now c refIds).2) ([]) hnd_u hun_u
    rw [addCachedLoop_spec now refIds _ _ hnd id, if_pos hm, hfr id, hfc id]
    by_cases hu : id ∈ (filterUncached now c refIds).1
    · rw [if_pos hu, if_pos hu]
      have hlnone : lookVal now c (refSetKey id) = none := by
        rw [hf1] at hu
        have hpx := (List.mem_filter.mp hu).2
        cases hv : lookVal now c (refSetKey id) with
        | none => rfl
        | some d =>
          rw [hv] at hpx
          exact absurd hpx (by simp)
      unfold expectedVal
      rw [hlnone]
      cases hnv : netVal net id with
      | some d => rfl
      | none => rfl
    · rw [if_neg hu, if_neg hu, hf2 (refSetKey id)]
      have hsome : ∃ d, lookVal now c (refSetKey id) = some d := by
        cases hv : lookVal now c (refSetKey id) with
        | some d => exact ⟨d, rfl⟩
        | none =>
          exfalso
          apply hu
          rw [hf1]
          exact List.mem_filter.mpr ⟨hm, by rw [hv]; rfl⟩
      obtain ⟨d, hd⟩ := hsome
      simp only [mapGet]
      rw [hd]
      unfold expectedVal
      rw [hd]

/-- The network oracle of the C6 scenario: reference `"a"` fails, reference
`"b"` succeeds with one item. -/
def batchNetW : String → Option RefSetData := fun s =>
  if s = "b" then some ⟨some [(("CuratedSet"), ⟨some [⟨"i1"⟩]⟩)]⟩ else none

theorem batch_partial_success_witness :
    mapGet (batchLoadRefSets batchNetW 0 ([]) ["a", "b"]).1 ("a") = none ∧
      mapGet (batchLoadRefSets batchNetW 0 ([]) ["a", "b"]).1 ("b") =
        some ⟨some [(("CuratedSet"), ⟨some [⟨"i1"⟩]⟩)]⟩ := by
  constructor
  · rw [batch_partial_success batchNetW 0 ([]) ["a", "b"] (by decide) ("a") (by decide)]
    rfl
  · rw [batch_partial_success batchNetW 0 ([]) ["a", "b"] (by decide) ("b") (by decide)]
    rfl

end ApiService
